import Mathlib

/-!
Verification of the core logic of the `@coreviz/cli` command-line client.

The development shallowly embeds the two stateful subsystems of the CLI:

* the OAuth2 device-authorization polling loop `pollForToken`
  (`src/bin/cli.js`, lines 114-173), modelled as a function from the
  scripted sequence of `device.token` responses to the trace of requests
  issued (each tagged with the number of seconds waited before it) and the
  final outcome;

* the embedding cache used by the `search` command
  (`src/unnamed/part_000`, lines 455-616): the `.index.db` row set, the
  cleanup ("reconcile") pass, the mtime-gated per-file refresh loop, the
  local `cosineSimilarity` ranking helper (`src/bin/cli.js`,
  lines 413-429), and the authentication guards shared by the
  `edit`/`describe`/`tag`/`search` commands.

Machine floats of the source are modelled as real numbers (for the
similarity arithmetic) and as an abstract timestamp type `Int` for mtimes,
on which the source only ever tests equality.
-/

namespace CorevizCLI

/-! ## Device-authorization poller (`pollForToken`, src/bin/cli.js:114-173) -/

/-- Value of the JavaScript expression `error.error_description || error.message`:
the description when it is present and non-empty (the empty string is falsy in
JavaScript), otherwise the message. -/
def jsOrElse (description : Option String) (message : String) : String :=
  match description with
  | none => message
  | some s => if s = "" then message else s

/-- One observed outcome of the `authClient.device.token` call, exactly as
`pollForToken` destructures it: a `data` payload carrying the credential
record (abstracted as `T`), an `error` whose `error` code is one of the four
recognised strings or something else (with its `error_description` and
`message` fields), a thrown transport failure, or a response carrying neither
`data` nor `error`. -/
inductive PollResponse (T : Type) where
  | success (tok : T)
  | errPending
  | errSlowDown
  | errAccessDenied
  | errExpiredToken
  | errOther (description : Option String) (message : String)
  | netFailure (message : String)
  | noData
  deriving DecidableEq, Repr

/-- How a poll session ends: `resolve(data)` with the credential record, or
`process.exit(1)` after one of the three cancel paths (denial, expiry, or a
poll error carrying a description).  The `cancel(...)` presentation prefixes
`"Error: "` / `"Network error: "` are display text and are not part of the
surfaced description. -/
inductive PollOutcome (T : Type) where
  | token (tok : T)
  | accessDenied
  | expired
  | pollError (description : String)
  deriving DecidableEq, Repr

/-- Trace of one poll session: for every request actually issued, the number
of seconds waited immediately before it (the `setTimeout(poll,
pollingInterval * 1000)` delay) paired with the response received; the final
outcome (`none` when the scripted responses ran out with the loop still
pending); and the value of `pollingInterval` when the session stopped. -/
structure PollTrace (T : Type) where
  steps : List (Nat × PollResponse T)
  result : Option (PollOutcome T)
  finalInterval : Nat
  deriving DecidableEq, Repr

variable {T : Type}

/-- Response codes after which `pollForToken` re-arms the timer and keeps
polling: `authorization_pending`, `slow_down`, and a response with neither
`data` nor `error` (which falls through both branches of the `if`). -/
def PollResponse.continues : PollResponse T → Bool
  | .errPending => true
  | .errSlowDown => true
  | .noData => true
  | _ => false

/-- Whether a response is the `slow_down` error code. -/
def PollResponse.isSlowDown : PollResponse T → Bool
  | .errSlowDown => true
  | _ => false

/-- The session-ending outcome a response produces, or `none` when the loop
keeps polling.  Mirrors the `switch` in `pollForToken`: `data` resolves the
promise; `access_denied` and `expired_token` cancel; any other unrecognised
code cancels with `error.error_description || error.message`; a thrown
transport error cancels with the thrown message. -/
def PollResponse.stopOutcome : PollResponse T → Option (PollOutcome T)
  | .success t => some (.token t)
  | .errAccessDenied => some .accessDenied
  | .errExpiredToken => some .expired
  | .errOther d m => some (.pollError (jsOrElse d m))
  | .netFailure m => some (.pollError m)
  | _ => none

/-- Shallow embedding of `pollForToken(deviceCode, initialInterval)`
(src/bin/cli.js:114-173), driven by the scripted list of responses the
server gives to successive `device.token` requests.  `pollingInterval`
starts at the initial interval; both the very first request and every
re-poll are scheduled with `setTimeout(poll, pollingInterval * 1000)`, so
each issued request is preceded by a wait of the then-current interval.
`slow_down` adds 5 to the interval; `authorization_pending` and an
empty response leave it unchanged and re-poll; everything else stops the
session with the corresponding outcome. -/
def pollForToken (interval : Nat) : List (PollResponse T) → PollTrace T
  | [] => ⟨[], none, interval⟩
  | r :: rs =>
    match r with
    | .success t => ⟨[(interval, r)], some (.token t), interval⟩
    | .errPending =>
        let p := pollForToken interval rs
        ⟨(interval, r) :: p.steps, p.result, p.finalInterval⟩
    | .errSlowDown =>
        let p := pollForToken (interval + 5) rs
        ⟨(interval, r) :: p.steps, p.result, p.finalInterval⟩
    | .errAccessDenied => ⟨[(interval, r)], some .accessDenied, interval⟩
    | .errExpiredToken => ⟨[(interval, r)], some .expired, interval⟩
    | .errOther d m => ⟨[(interval, r)], some (.pollError (jsOrElse d m)), interval⟩
    | .netFailure m => ⟨[(interval, r)], some (.pollError m), interval⟩
    | .noData =>
        let p := pollForToken interval rs
        ⟨(interval, r) :: p.steps, p.result, p.finalInterval⟩

/-- The value `pollingInterval` holds just before the `k`-th request of the
session (counting from 0): the initial interval plus 5 for every `slow_down`
among the first `k` responses. -/
def intervalAt (i : Nat) : List (PollResponse T) → Nat → Nat
  | _, 0 => i
  | [], _ + 1 => i
  | r :: rs, k + 1 => intervalAt (if r.isSlowDown then i + 5 else i) rs k

theorem pollForToken_cons_continue (i : Nat) (r : PollResponse T)
    (rs : List (PollResponse T)) (h : r.continues = true) :
    pollForToken i (r :: rs) =
      ⟨(i, r) :: (pollForToken (if r.isSlowDown then i + 5 else i) rs).steps,
       (pollForToken (if r.isSlowDown then i + 5 else i) rs).result,
       (pollForToken (if r.isSlowDown then i + 5 else i) rs).finalInterval⟩ := by
  cases r <;> simp_all [pollForToken, PollResponse.continues, PollResponse.isSlowDown]

theorem pollForToken_cons_stop (i : Nat) (r : PollResponse T)
    (rs : List (PollResponse T)) (h : r.continues = false) :
    pollForToken i (r :: rs) = ⟨[(i, r)], r.stopOutcome, i⟩ := by
  cases r <;> simp_all [pollForToken, PollResponse.continues, PollResponse.stopOutcome]

theorem continues_eq_false_iff (r : PollResponse T) :
    r.continues = false ↔ r.stopOutcome ≠ none := by
  cases r <;> simp [PollResponse.continues, PollResponse.stopOutcome]

theorem pollForToken_steps_cons_continue (i : Nat) (r : PollResponse T)
    (rs : List (PollResponse T)) (h : r.continues = true) :
    (pollForToken i (r :: rs)).steps =
      (i, r) :: (pollForToken (if r.isSlowDown then i + 5 else i) rs).steps := by
  rw [pollForToken_cons_continue i r rs h]

theorem pollForToken_result_cons_continue (i : Nat) (r : PollResponse T)
    (rs : List (PollResponse T)) (h : r.continues = true) :
    (pollForToken i (r :: rs)).result =
      (pollForToken (if r.isSlowDown then i + 5 else i) rs).result := by
  rw [pollForToken_cons_continue i r rs h]

theorem pollForToken_steps_cons_stop (i : Nat) (r : PollResponse T)
    (rs : List (PollResponse T)) (h : r.continues = false) :
    (pollForToken i (r :: rs)).steps = [(i, r)] := by
  rw [pollForToken_cons_stop i r rs h]

theorem pollForToken_result_cons_stop (i : Nat) (r : PollResponse T)
    (rs : List (PollResponse T)) (h : r.continues = false) :
    (pollForToken i (r :: rs)).result = r.stopOutcome := by
  rw [pollForToken_cons_stop i r rs h]

/-- Master description of the request trace: the `k`-th issued request (when
it exists) answers the `k`-th scripted response and was issued after waiting
exactly `intervalAt i rs k` seconds. -/
theorem pollForToken_steps_spec (i : Nat) (rs : List (PollResponse T)) (k : Nat)
    (hk : k < (pollForToken i rs).steps.length) :
    ∃ r, rs[k]? = some r ∧
      (pollForToken i rs).steps[k]? = some (intervalAt i rs k, r) := by
  induction rs generalizing i k with
  | nil => simp [pollForToken] at hk
  | cons r rs ih =>
    by_cases hc : r.continues = true
    · rw [pollForToken_steps_cons_continue i r rs hc] at hk ⊢
      cases k with
      | zero => exact ⟨r, by simp, by simp [intervalAt]⟩
      | succ k =>
        simp only [List.length_cons, Nat.add_lt_add_iff_right] at hk
        obtain ⟨r', hr', hs'⟩ := ih (if r.isSlowDown then i + 5 else i) k hk
        exact ⟨r', by simpa using hr', by simpa [intervalAt] using hs'⟩
    · rw [pollForToken_steps_cons_stop i r rs (by simpa using hc)] at hk ⊢
      cases k with
      | zero => exact ⟨r, by simp, by simp [intervalAt]⟩
      | succ k => simp at hk

theorem intervalAt_succ (i : Nat) (rs : List (PollResponse T)) (k : Nat)
    (r : PollResponse T) (hk : rs[k]? = some r) :
    intervalAt i rs (k + 1) =
      if r.isSlowDown then intervalAt i rs k + 5 else intervalAt i rs k := by
  induction rs generalizing i k with
  | nil => simp at hk
  | cons r' rs ih =>
    cases k with
    | zero =>
      simp only [List.getElem?_cons_zero, Option.some.injEq] at hk
      simp [intervalAt, hk]
    | succ k =>
      simp only [List.getElem?_cons_succ] at hk
      simp only [intervalAt]
      exact ih _ k hk

theorem pollForToken_result_token_iff (i : Nat) (rs : List (PollResponse T)) (t : T) :
    (pollForToken i rs).result = some (.token t) ↔
      ∃ k : Nat, rs[k]? = some (.success t) ∧
        ∀ j, j < k → ∃ r : PollResponse T, rs[j]? = some r ∧ r.continues = true := by
  induction rs generalizing i with
  | nil =>
    simp only [pollForToken]
    constructor
    · intro h; cases h
    · rintro ⟨k, hk, -⟩; simp at hk
  | cons r rs ih =>
    by_cases hc : r.continues = true
    · rw [pollForToken_result_cons_continue i r rs hc,
        ih (if r.isSlowDown then i + 5 else i)]
      constructor
      · rintro ⟨k, hk, hpre⟩
        refine ⟨k + 1, by simpa using hk, ?_⟩
        intro j hj
        cases j with
        | zero => exact ⟨r, by simp, hc⟩
        | succ j =>
          obtain ⟨r', hr', hcont⟩ := hpre j (by omega)
          exact ⟨r', by simpa using hr', hcont⟩
      · rintro ⟨k, hk, hpre⟩
        cases k with
        | zero =>
          simp only [List.getElem?_cons_zero, Option.some.injEq] at hk
          rw [hk] at hc
          simp [PollResponse.continues] at hc
        | succ k =>
          refine ⟨k, by simpa using hk, ?_⟩
          intro j hj
          obtain ⟨r', hr', hcont⟩ := hpre (j + 1) (by omega)
          exact ⟨r', by simpa using hr', hcont⟩
    · rw [pollForToken_result_cons_stop i r rs (by simpa using hc)]
      constructor
      · intro h
        cases r with
        | success t' =>
          simp only [PollResponse.stopOutcome, Option.some.injEq,
            PollOutcome.token.injEq] at h
          subst h
          exact ⟨0, by simp, by intro j hj; omega⟩
        | errPending => simp [PollResponse.continues] at hc
        | errSlowDown => simp [PollResponse.continues] at hc
        | noData => simp [PollResponse.continues] at hc
        | errAccessDenied => simp [PollResponse.stopOutcome] at h
        | errExpiredToken => simp [PollResponse.stopOutcome] at h
        | errOther d m => simp [PollResponse.stopOutcome] at h
        | netFailure m => simp [PollResponse.stopOutcome] at h
      · rintro ⟨k, hk, hpre⟩
        cases k with
        | zero =>
          simp only [List.getElem?_cons_zero, Option.some.injEq] at hk
          rw [hk]
          simp [PollResponse.stopOutcome]
        | succ k =>
          obtain ⟨r', hr', hcont⟩ := hpre 0 (by omega)
          simp only [List.getElem?_cons_zero, Option.some.injEq] at hr'
          rw [← hr'] at hcont
          rw [hcont] at hc
          exact absurd rfl hc

theorem getElem?_some_lt_length {α : Type} (l : List α) (k : Nat) (a : α)
    (h : l[k]? = some a) : k < l.length := by
  by_contra hk
  rw [List.getElem?_eq_none (by omega)] at h
  cases h

/-- When the first `k` responses all continue the loop and the `k`-th
response stops it, the session issues exactly `k + 1` requests and ends with
that response's outcome. -/
theorem pollForToken_stops_at (i : Nat) (rs : List (PollResponse T)) (k : Nat)
    (r : PollResponse T) (hk : rs[k]? = some r)
    (hpre : ∀ j, j < k → ∃ r' : PollResponse T, rs[j]? = some r' ∧ r'.continues = true)
    (hterm : r.continues = false) :
    (pollForToken i rs).steps.length = k + 1 ∧
    (pollForToken i rs).result = r.stopOutcome := by
  induction rs generalizing i k with
  | nil => simp at hk
  | cons r0 rs ih =>
    cases k with
    | zero =>
      simp only [List.getElem?_cons_zero, Option.some.injEq] at hk
      subst hk
      rw [pollForToken_steps_cons_stop i r0 rs hterm,
        pollForToken_result_cons_stop i r0 rs hterm]
      simp
    | succ k =>
      obtain ⟨r', hr', hcont⟩ := hpre 0 (by omega)
      simp only [List.getElem?_cons_zero, Option.some.injEq] at hr'
      rw [← hr'] at hcont
      rw [pollForToken_steps_cons_continue i r0 rs hcont,
        pollForToken_result_cons_continue i r0 rs hcont]
      have hk' : rs[k]? = some r := by simpa using hk
      have hpre' : ∀ j, j < k →
          ∃ r' : PollResponse T, rs[j]? = some r' ∧ r'.continues = true := by
        intro j hj
        obtain ⟨r'', hr'', hc''⟩ := hpre (j + 1) (by omega)
        exact ⟨r'', by simpa using hr'', hc''⟩
      obtain ⟨hlen, hres⟩ := ih (if r0.isSlowDown then i + 5 else i) k hk' hpre'
      exact ⟨by simp [hlen], hres⟩

/-- C1: in every `pollForToken` session, every poll request — the first
included — is issued only after waiting the interval current at that point of
the session; an `authorization_pending` response leaves the wait before the
next request unchanged; and the session resolves with the credential record
exactly when the server eventually answers some request with a token
response, each earlier response being one that continues polling. -/
theorem pollForToken_interval_discipline_and_token_iff
    (i : Nat) (rs : List (PollResponse T)) :
    (∀ k, k < (pollForToken i rs).steps.length →
        (pollForToken i rs).steps[k]?.map Prod.fst = some (intervalAt i rs k)) ∧
    (∀ k w w' r', (pollForToken i rs).steps[k]? = some (w, .errPending) →
        (pollForToken i rs).steps[k + 1]? = some (w', r') → w' = w) ∧
    (∀ t : T, (pollForToken i rs).result = some (.token t) ↔
      ∃ k : Nat, rs[k]? = some (.success t) ∧
        ∀ j, j < k → ∃ r : PollResponse T, rs[j]? = some r ∧ r.continues = true) := by
  refine ⟨?_, ?_, fun t => pollForToken_result_token_iff i rs t⟩
  · intro k hk
    obtain ⟨r, _, hs⟩ := pollForToken_steps_spec i rs k hk
    rw [hs]
    rfl
  · intro k w w' r' h1 h2
    have hk1 : k < (pollForToken i rs).steps.length :=
      getElem?_some_lt_length _ k _ h1
    have hk2 : k + 1 < (pollForToken i rs).steps.length :=
      getElem?_some_lt_length _ (k + 1) _ h2
    obtain ⟨r1, hr1, hs1⟩ := pollForToken_steps_spec i rs k hk1
    obtain ⟨r2, hr2, hs2⟩ := pollForToken_steps_spec i rs (k + 1) hk2
    rw [hs1] at h1
    rw [hs2] at h2
    simp only [Option.some.injEq, Prod.mk.injEq] at h1 h2
    obtain ⟨hw, hr1p⟩ := h1
    obtain ⟨hw', -⟩ := h2
    rw [hr1p] at hr1
    rw [← hw, ← hw', intervalAt_succ i rs k _ hr1]
    simp [PollResponse.isSlowDown]

/-- Witness for C1 at a concrete session: initial interval 5, one
`authorization_pending` response, then a token; the first request waits the
initial 5 seconds and the session returns the credential record. -/
theorem pollForToken_interval_discipline_and_token_iff_witness :
    ((pollForToken 5 [PollResponse.errPending, PollResponse.success 7]).steps[0]?.map
        Prod.fst = some 5) ∧
    (pollForToken 5 [PollResponse.errPending,
        PollResponse.success 7]).result = some (PollOutcome.token 7) := by
  have h := pollForToken_interval_discipline_and_token_iff 5
    [PollResponse.errPending, PollResponse.success (7 : Nat)]
  constructor
  · simpa [intervalAt] using h.1 0 (by decide)
  · exact (h.2.2 7).mpr ⟨1, by decide, by
      intro j hj
      have hj0 : j = 0 := by omega
      subst hj0
      exact ⟨PollResponse.errPending, by decide, by decide⟩⟩

/-- C2: within one poll session, the wait between consecutive requests never
decreases, and a `slow_down` response increases it by exactly the fixed step
of 5 seconds. -/
theorem pollForToken_slowdown_monotone (i : Nat) (rs : List (PollResponse T)) :
    ∀ k w r w' r', (pollForToken i rs).steps[k]? = some (w, r) →
      (pollForToken i rs).steps[k + 1]? = some (w', r') →
      w ≤ w' ∧ (r.isSlowDown = true → w' = w + 5) := by
  intro k w r w' r' h1 h2
  have hk1 : k < (pollForToken i rs).steps.length :=
    getElem?_some_lt_length _ k _ h1
  have hk2 : k + 1 < (pollForToken i rs).steps.length :=
    getElem?_some_lt_length _ (k + 1) _ h2
  obtain ⟨r1, hr1, hs1⟩ := pollForToken_steps_spec i rs k hk1
  obtain ⟨r2, hr2, hs2⟩ := pollForToken_steps_spec i rs (k + 1) hk2
  rw [hs1] at h1
  rw [hs2] at h2
  simp only [Option.some.injEq, Prod.mk.injEq] at h1 h2
  obtain ⟨hw, hr⟩ := h1
  obtain ⟨hw', -⟩ := h2
  rw [hr] at hr1
  rw [← hw, ← hw', ← hr, intervalAt_succ i rs k r hr1]
  by_cases hs : r.isSlowDown = true
  · simp [hs, hr]
  · simp [hs, hr]

/-- Witness for C2 at a concrete session: initial interval 5, a `slow_down`
response followed by a token; the second request waits 5 + 5 = 10 seconds. -/
theorem pollForToken_slowdown_monotone_witness :
    (5 : Nat) ≤ 10 ∧
    (PollResponse.isSlowDown (T := Nat) PollResponse.errSlowDown = true →
      (10 : Nat) = 5 + 5) :=
  pollForToken_slowdown_monotone 5
    [PollResponse.errSlowDown, PollResponse.success (3 : Nat)] 0 5
    PollResponse.errSlowDown 10 (PollResponse.success 3) (by decide) (by decide)

/-- C3: a response of `access_denied`, `expired_token`, any unrecognised
error code, or a thrown transport failure is terminal: the session issues no
further poll request after it (the trace length is exactly the position of
the terminal response plus one, whatever responses would have followed), and
the surfaced outcomes are respectively `AccessDenied`, `Expired`,
`PollError` with the server-supplied description
(`error.error_description || error.message`), and `PollError` with the
thrown message; in particular a network failure is never retried. -/
theorem pollForToken_terminal_no_further_polls (i : Nat)
    (rs : List (PollResponse T)) (k : Nat) (r : PollResponse T)
    (hk : rs[k]? = some r)
    (hpre : ∀ j, j < k → ∃ r' : PollResponse T, rs[j]? = some r' ∧ r'.continues = true)
    (hterm : r.continues = false) :
    (pollForToken i rs).steps.length = k + 1 ∧
    (pollForToken i rs).result = r.stopOutcome ∧
    (r = .errAccessDenied → (pollForToken i rs).result = some .accessDenied) ∧
    (r = .errExpiredToken → (pollForToken i rs).result = some .expired) ∧
    (∀ d m, r = .errOther d m →
      (pollForToken i rs).result = some (.pollError (jsOrElse d m))) ∧
    (∀ m, r = .netFailure m → (pollForToken i rs).result = some (.pollError m)) := by
  obtain ⟨hlen, hres⟩ := pollForToken_stops_at i rs k r hk hpre hterm
  refine ⟨hlen, hres, ?_, ?_, ?_, ?_⟩
  · intro h
    rw [hres, h]
    rfl
  · intro h
    rw [hres, h]
    rfl
  · intro d m h
    rw [hres, h]
    rfl
  · intro m h
    rw [hres, h]
    rfl

/-- Witness for C3 at a concrete session: one `authorization_pending`
response and then `access_denied`; the session issues exactly two requests
(ignoring the scripted third response) and surfaces the denial. -/
theorem pollForToken_terminal_no_further_polls_witness :
    (pollForToken (T := Nat) 5 [PollResponse.errPending,
        PollResponse.errAccessDenied, PollResponse.errPending]).steps.length = 2 ∧
    (pollForToken (T := Nat) 5 [PollResponse.errPending,
        PollResponse.errAccessDenied,
        PollResponse.errPending]).result = some PollOutcome.accessDenied := by
  have h := pollForToken_terminal_no_further_polls (T := Nat) 5
    [PollResponse.errPending, PollResponse.errAccessDenied, PollResponse.errPending]
    1 PollResponse.errAccessDenied (by decide)
    (by
      intro j hj
      have hj0 : j = 0 := by omega
      subst hj0
      exact ⟨PollResponse.errPending, by decide, by decide⟩)
    (by decide)
  exact ⟨h.1, h.2.2.1 rfl⟩

/-! ## Cosine similarity (`cosineSimilarity`, src/bin/cli.js:413-429) -/

/-- The accumulated `dotProduct` of the loop in `cosineSimilarity`:
`dotProduct += vecA[i] * vecB[i]` over all indices (the function only reaches
the loop when the two lengths are equal, so the pointwise zip is exact). -/
def dotProd (a b : List ℝ) : ℝ := (List.zipWith (fun x y => x * y) a b).sum

/-- The accumulated `normA` (respectively `normB`) of the loop:
the sum of squares of the entries, before the square root is taken. -/
def sumSq (a : List ℝ) : ℝ := (a.map (fun x => x * x)).sum

/-- Shallow embedding of `cosineSimilarity(vecA, vecB)`
(src/bin/cli.js:413-429): mismatched lengths return 0; a zero sum of squares
on either side returns 0 before any division; otherwise the dot product is
divided by the product of the square roots of the two sums of squares.
IEEE doubles are modelled as real numbers. -/
noncomputable def cosineSimilarity (vecA vecB : List ℝ) : ℝ :=
  if vecA.length ≠ vecB.length then 0
  else if sumSq vecA = 0 ∨ sumSq vecB = 0 then 0
  else dotProd vecA vecB / (Real.sqrt (sumSq vecA) * Real.sqrt (sumSq vecB))

theorem sumSq_nonneg (a : List ℝ) : 0 ≤ sumSq a := by
  refine List.sum_nonneg ?_
  intro x hx
  obtain ⟨y, -, rfl⟩ := List.mem_map.mp hx
  exact mul_self_nonneg y

theorem sum_map_eq_fin_sum {α : Type} (l : List α) (g : α → ℝ) :
    (l.map g).sum = ∑ i : Fin l.length, g (l.get i) := by
  induction l with
  | nil => simp
  | cons x xs ih =>
    rw [List.map_cons, List.sum_cons, ih]
    simp only [List.length_cons]
    rw [Fin.sum_univ_succ]
    rfl

/-- Cauchy-Schwarz for a list of coordinate pairs. -/
theorem zip_cauchy_schwarz (l : List (ℝ × ℝ)) :
    ((l.map (fun p => p.1 * p.2)).sum) ^ 2 ≤
      (l.map (fun p => p.1 * p.1)).sum * (l.map (fun p => p.2 * p.2)).sum := by
  rw [sum_map_eq_fin_sum l (fun p => p.1 * p.2),
    sum_map_eq_fin_sum l (fun p => p.1 * p.1),
    sum_map_eq_fin_sum l (fun p => p.2 * p.2)]
  have h := Finset.sum_mul_sq_le_sq_mul_sq Finset.univ
    (fun i : Fin l.length => (l.get i).1) (fun i : Fin l.length => (l.get i).2)
  simpa only [pow_two] using h

theorem dotProd_eq_zip (a b : List ℝ) :
    dotProd a b = ((a.zip b).map (fun p => p.1 * p.2)).sum := by
  induction a generalizing b with
  | nil => simp [dotProd]
  | cons x xs ih =>
    cases b with
    | nil => simp [dotProd]
    | cons y ys =>
      simp only [dotProd, List.zipWith_cons_cons, List.zip_cons_cons,
        List.map_cons, List.sum_cons] at ih ⊢
      rw [ih ys]

theorem sumSq_eq_zip_left (a b : List ℝ) (h : a.length = b.length) :
    sumSq a = ((a.zip b).map (fun p => p.1 * p.1)).sum := by
  induction a generalizing b with
  | nil => simp [sumSq]
  | cons x xs ih =>
    cases b with
    | nil => simp at h
    | cons y ys =>
      simp only [List.length_cons, Nat.add_right_cancel_iff] at h
      simp only [sumSq, List.zip_cons_cons, List.map_cons, List.sum_cons] at ih ⊢
      rw [ih ys h]

theorem sumSq_eq_zip_right (a b : List ℝ) (h : a.length = b.length) :
    sumSq b = ((a.zip b).map (fun p => p.2 * p.2)).sum := by
  induction a generalizing b with
  | nil =>
    cases b with
    | nil => simp [sumSq]
    | cons y ys => simp at h
  | cons x xs ih =>
    cases b with
    | nil => simp at h
    | cons y ys =>
      simp only [List.length_cons, Nat.add_right_cancel_iff] at h
      simp only [sumSq, List.zip_cons_cons, List.map_cons, List.sum_cons] at ih ⊢
      rw [ih ys h]

theorem dotProd_sq_le_sumSq_mul (a b : List ℝ) (h : a.length = b.length) :
    (dotProd a b) ^ 2 ≤ sumSq a * sumSq b := by
  rw [dotProd_eq_zip, sumSq_eq_zip_left a b h, sumSq_eq_zip_right a b h]
  exact zip_cauchy_schwarz (a.zip b)

/-- C5: for every pair of real-valued vectors the score computed by
`cosineSimilarity` lies in the closed interval [-1, 1]: the mismatched-length
and zero-norm branches return 0 and the division branch is bounded by the
Cauchy-Schwarz inequality. -/
theorem cosineSimilarity_score_in_unit_interval (a b : List ℝ) :
    -1 ≤ cosineSimilarity a b ∧ cosineSimilarity a b ≤ 1 := by
  rw [← abs_le]
  unfold cosineSimilarity
  split
  · simp
  · split
    · simp
    · rename_i hlen hz
      push_neg at hlen hz
      obtain ⟨hA, hB⟩ := hz
      have hA0 : 0 < sumSq a := lt_of_le_of_ne (sumSq_nonneg a) (Ne.symm hA)
      have hB0 : 0 < sumSq b := lt_of_le_of_ne (sumSq_nonneg b) (Ne.symm hB)
      have hsA : 0 < Real.sqrt (sumSq a) := Real.sqrt_pos.mpr hA0
      have hsB : 0 < Real.sqrt (sumSq b) := Real.sqrt_pos.mpr hB0
      have habs : |dotProd a b| ≤ Real.sqrt (sumSq a) * Real.sqrt (sumSq b) := by
        have h1 : Real.sqrt ((dotProd a b) ^ 2) ≤ Real.sqrt (sumSq a * sumSq b) :=
          Real.sqrt_le_sqrt (dotProd_sq_le_sumSq_mul a b hlen)
        rw [Real.sqrt_sq_eq_abs, Real.sqrt_mul (sumSq_nonneg a)] at h1
        exact h1
      rw [abs_div, abs_of_pos (mul_pos hsA hsB), div_le_one (mul_pos hsA hsB)]
      exact habs

/-- C4: the reference values of `cosineSimilarity`: identical unit vectors
score exactly 1, orthogonal unit vectors exactly 0, opposite unit vectors
exactly -1; any two vectors of unequal length score 0; and any pair in which
either vector has a zero sum of squares scores 0 with no division
performed. -/
theorem cosineSimilarity_reference_values :
    cosineSimilarity [1, 0] [1, 0] = 1 ∧
    cosineSimilarity [1, 0] [0, 1] = 0 ∧
    cosineSimilarity [1, 0] [-1, 0] = -1 ∧
    (∀ a b : List ℝ, a.length ≠ b.length → cosineSimilarity a b = 0) ∧
    (∀ a b : List ℝ, sumSq a = 0 ∨ sumSq b = 0 → cosineSimilarity a b = 0) := by
  refine ⟨?_, ?_, ?_, ?_, ?_⟩
  · have h1 : sumSq [(1 : ℝ), 0] = 1 := by norm_num [sumSq]
    rw [cosineSimilarity]
    norm_num [h1, dotProd]
  · have h1 : sumSq [(1 : ℝ), 0] = 1 := by norm_num [sumSq]
    have h2 : sumSq [(0 : ℝ), 1] = 1 := by norm_num [sumSq]
    rw [cosineSimilarity]
    norm_num [h1, h2, dotProd]
  · have h1 : sumSq [(1 : ℝ), 0] = 1 := by norm_num [sumSq]
    have h2 : sumSq [(-1 : ℝ), 0] = 1 := by norm_num [sumSq]
    rw [cosineSimilarity]
    norm_num [h1, h2, dotProd]
  · intro a b h
    rw [cosineSimilarity, if_pos h]
  · intro a b h
    rw [cosineSimilarity]
    by_cases hl : a.length ≠ b.length
    · rw [if_pos hl]
    · rw [if_neg hl, if_pos h]

/-- Witness for C4's two conditional clauses at concrete inputs: a
length-mismatched pair and a zero-norm pair both score 0. -/
theorem cosineSimilarity_reference_values_witness :
    cosineSimilarity [1] [] = 0 ∧ cosineSimilarity [0] [0] = 0 := by
  constructor
  · exact cosineSimilarity_reference_values.2.2.2.1 [1] [] (by simp)
  · exact cosineSimilarity_reference_values.2.2.2.2 [0] [0]
      (Or.inl (by norm_num [sumSq]))

/-! ## Embedding cache and the `search` command
(src/unnamed/part_000:455-616; the same loop at src/bin/cli.js:336-371) -/

/-- One row of the `images` table (`path TEXT PRIMARY KEY, mtime REAL,
embedding TEXT`).  `E` abstracts the JSON-encoded embedding payload; the
column may be NULL in a pre-existing database, hence `Option`.  The source
only ever compares mtimes for equality, so the REAL timestamp is modelled by
an abstract `Int`. -/
structure Entry (E : Type) where
  path : String
  mtime : Int
  embedding : Option E
  deriving DecidableEq, Repr

variable {E Q S : Type}

/-- `SELECT mtime FROM images WHERE path = ?` — the row keyed by `p`. -/
def lookupEntry (store : List (Entry E)) (p : String) : Option (Entry E) :=
  store.find? (fun e => e.path == p)

/-- `INSERT OR REPLACE INTO images (path, mtime, embedding) VALUES (?, ?, ?)`:
any existing row for the path is replaced by the new one. -/
def upsert (store : List (Entry E)) (p : String) (m : Int) (emb : E) :
    List (Entry E) :=
  store.filter (fun e => !(e.path == p)) ++ [⟨p, m, some emb⟩]

/-- The cleanup pass of `search` (src/unnamed/part_000:516-522): every indexed
row whose path is not among the currently scanned files is deleted. -/
def reconcile (store : List (Entry E)) (files : List String) : List (Entry E) :=
  store.filter (fun e => files.contains e.path)

/-- Result of one `coreviz.embed(...)` call for a file: the embedding, or a
thrown error; `credits` records whether `error.message.includes('credits')`
holds for the thrown message. -/
inductive EmbedResult (E : Type) where
  | ok (embedding : E)
  | err (credits : Bool)
  deriving DecidableEq, Repr

/-- State produced by the per-file indexing loop: the resulting row set, the
files on which `coreviz.embed` was actually invoked (in order), and whether
the loop terminated the process early (`process.exit(1)` on an
insufficient-credits error outside quiet mode). -/
structure IndexState (E : Type) where
  store : List (Entry E)
  calls : List String
  aborted : Bool
  deriving DecidableEq, Repr

/-- The guard `existing && existing.mtime === mtime` of the per-file loop
(src/unnamed/part_000:540-545): a row for the file exists and its stored
mtime equals the file's current mtime. -/
def cacheHit (fsMtime : String → Int) (store : List (Entry E)) (f : String) :
    Bool :=
  match lookupEntry store f with
  | some e => e.mtime == fsMtime f
  | none => false

/-- The per-file indexing loop of `search` (src/unnamed/part_000:535-564).
For each file in order: if a row for it exists and its stored mtime equals
the current mtime, skip it (cache hit, no embed call); otherwise call the
embed collaborator; on success `INSERT OR REPLACE` the row with the current
mtime; on failure write nothing and continue with the next file — except an
insufficient-credits failure when quiet output is disabled, which exits the
process immediately, leaving the remaining files unprocessed. -/
def indexLoop (quiet : Bool) (fsMtime : String → Int)
    (embed : String → EmbedResult E) :
    List String → List (Entry E) → IndexState E
  | [], store => ⟨store, [], false⟩
  | f :: rest, store =>
    if cacheHit fsMtime store f then indexLoop quiet fsMtime embed rest store
    else
      match embed f with
      | .ok emb =>
          let s := indexLoop quiet fsMtime embed rest
            (upsert store f (fsMtime f) emb)
          ⟨s.store, f :: s.calls, s.aborted⟩
      | .err credits =>
          if !quiet && credits then ⟨store, [f], true⟩
          else
            let s := indexLoop quiet fsMtime embed rest store
            ⟨s.store, f :: s.calls, s.aborted⟩

/-- The stored session record as the commands read it: only the
`access_token` field matters to the guards. -/
structure Credential where
  access_token : Option String
  deriving DecidableEq, Repr

/-- The guard `if (!session || !session.access_token)` shared by the
`edit`/`describe`/`tag`/`search` actions: there must be a stored session and
its `access_token` must be present and non-empty (the empty string is falsy
in JavaScript). -/
def loggedIn : Option Credential → Bool
  | none => false
  | some c =>
    match c.access_token with
    | none => false
    | some t => !(t == "")

/-- Node's `path.extname` on a plain file name: the suffix starting at the
last dot, empty when there is no dot or when the only dot is the leading
character of the name. -/
def extname (s : String) : String :=
  let cs := s.toList
  let tail := cs.reverse.takeWhile (fun c => !(c == '.'))
  if tail.length = cs.length then ""
  else if tail.length + 1 = cs.length && cs.head? == some '.' then ""
  else String.mk ('.' :: tail.reverse)

/-- The fixed allow-list of image extensions used by `search`
(src/unnamed/part_000:494). -/
def imageExtensions : List String :=
  [".jpg", ".jpeg", ".png", ".webp", ".gif", ".bmp", ".tiff"]

/-- JavaScript's `toLowerCase()` on an extension string, modelled
characterwise (the allow-listed extensions are all ASCII). -/
def lowerAscii (s : String) : String :=
  String.mk (s.toList.map Char.toLower)

/-- The directory-scan filter of `search` (src/unnamed/part_000:495-496):
`imageExtensions.includes(path.extname(file).toLowerCase())`. -/
def isImageFile (f : String) : Bool :=
  imageExtensions.contains (lowerAscii (extname f))

/-- Insertion step of the comparator sort used to model
`results.sort((a, b) => b.similarity - a.similarity)`. -/
def insertBy {α : Type} (le : α → α → Bool) (a : α) : List α → List α
  | [] => [a]
  | b :: bs => if le a b then a :: b :: bs else b :: insertBy le a bs

/-- Comparator sort used to model `Array.prototype.sort`: the relative order
of elements the comparator ties is implementation-defined in the source, so
any comparator-respecting sort is a faithful model. -/
def sortBy {α : Type} (le : α → α → Bool) : List α → List α
  | [] => []
  | a :: as => insertBy le a (sortBy le as)

/-- A remote request issued by one run of `search`: the local-mode model
warm-up embed, a per-file image embed, or the query embed. -/
inductive RemoteCall where
  | warmup
  | embedImage (file : String)
  | embedQuery
  deriving DecidableEq, Repr

/-- How one run of `search` ends. -/
inductive SearchOutcome (S : Type) where
  | notAuthenticated
  | noImages
  | creditsAbort
  | searchFailed
  | results (ranked : List (String × S))
  deriving DecidableEq, Repr

/-- Observable effect of one run of `search`: the remote calls issued in
order, the final row set of `.index.db`, and the outcome. -/
structure SearchRun (E S : Type) where
  calls : List RemoteCall
  finalStore : List (Entry E)
  outcome : SearchOutcome S
  deriving DecidableEq, Repr

/-- Process exit code of each `search` outcome, as in the source:
`process.exit(1)` on the failure paths, `process.exit(0)` on an empty scan,
normal termination (0) on a result list. -/
def searchExitCode : SearchOutcome S → Nat
  | .notAuthenticated => 1
  | .noImages => 0
  | .creditsAbort => 1
  | .searchFailed => 1
  | .results _ => 0

/-- Shallow embedding of the `search` command action
(src/unnamed/part_000:455-616).  Environment parameters: the stored session,
the `.index.db` row set, the raw directory listing, the current mtime of
each file, the embed collaborator's behaviour per file, the result of the
query embed, and the SDK similarity/comparison used for ranking.  The
sequence mirrors the source: auth guard; open/create the table (row set
unchanged); extension scan; empty-scan early exit before the cleanup pass;
cleanup; local-mode warm-up embed; per-file indexing loop; query embed;
score every stored row, sort descending, keep the top 5. -/
def searchCmd (quiet localMode : Bool) (session : Option Credential)
    (store : List (Entry E)) (dirListing : List String)
    (fsMtime : String → Int) (embed : String → EmbedResult E)
    (queryRes : EmbedResult Q) (sim : Q → E → S) (sle : S → S → Bool) :
    SearchRun E S :=
  if !(loggedIn session) then ⟨[], store, .notAuthenticated⟩
  else
    let files := dirListing.filter isImageFile
    if files.isEmpty then ⟨[], store, .noImages⟩
    else
      let store1 := reconcile store files
      let warmCalls : List RemoteCall := if localMode then [.warmup] else []
      let st := indexLoop quiet fsMtime embed files store1
      if st.aborted then
        ⟨warmCalls ++ st.calls.map RemoteCall.embedImage, st.store, .creditsAbort⟩
      else
        match queryRes with
        | .err _ =>
            ⟨warmCalls ++ st.calls.map RemoteCall.embedImage ++ [.embedQuery],
             st.store, .searchFailed⟩
        | .ok q =>
            let scored := st.store.filterMap
              (fun e => e.embedding.map (fun emb => (e.path, sim q emb)))
            let ranked := (sortBy (fun x y => sle y.2 x.2) scored).take 5
            ⟨warmCalls ++ st.calls.map RemoteCall.embedImage ++ [.embedQuery],
             st.store, .results ranked⟩

/-- Result of the single remote call of `edit`/`describe`/`tag`: the payload,
or a thrown error with its credits flag. -/
inductive RemoteResult (A : Type) where
  | ok (a : A)
  | err (credits : Bool)
  deriving DecidableEq, Repr

/-- How one run of `edit`/`describe`/`tag` ends. -/
inductive CmdOutcome (A : Type) where
  | notAuthenticated
  | fileNotFound
  | done (result : A)
  | failed (credits : Bool)
  deriving DecidableEq, Repr

/-- Observable effect of one run of `edit`/`describe`/`tag`: how many remote
requests were issued and the outcome. -/
structure CmdRun (A : Type) where
  remoteCalls : Nat
  outcome : CmdOutcome A
  deriving DecidableEq, Repr

/-- Process exit code of each `edit`/`describe`/`tag` outcome: every failure
path calls `process.exit(1)`. -/
def cmdExitCode {A : Type} : CmdOutcome A → Nat
  | .done _ => 0
  | _ => 1

/-- Shallow embedding of the `edit` command action
(src/unnamed/part_000:198-283): session guard, then file-existence guard,
then the single remote edit call. -/
def editCmd {A : Type} (session : Option Credential) (fileExists : Bool)
    (remote : RemoteResult A) : CmdRun A :=
  if !(loggedIn session) then ⟨0, .notAuthenticated⟩
  else if !fileExists then ⟨0, .fileNotFound⟩
  else
    match remote with
    | .ok a => ⟨1, .done a⟩
    | .err c => ⟨1, .failed c⟩

theorem find?_filter_keep {α : Type} (l : List α) (p q : α → Bool)
    (h : ∀ x, p x = true → q x = true) : (l.filter q).find? p = l.find? p := by
  induction l with
  | nil => rfl
  | cons x xs ih =>
    by_cases hq : q x = true
    · rw [List.filter_cons_of_pos hq]
      by_cases hp : p x = true
      · rw [List.find?_cons_of_pos _ hp, List.find?_cons_of_pos _ hp]
      · rw [List.find?_cons_of_neg _ hp, List.find?_cons_of_neg _ hp]
        exact ih
    · have hp : ¬ p x = true := fun hc => hq (h x hc)
      rw [List.filter_cons_of_neg hq, List.find?_cons_of_neg _ hp]
      exact ih

theorem find?_append_right_none {α : Type} (l₁ l₂ : List α) (p : α → Bool)
    (h : l₂.find? p = none) : (l₁ ++ l₂).find? p = l₁.find? p := by
  induction l₁ with
  | nil => simpa using h
  | cons x xs ih =>
    by_cases hp : p x = true
    · rw [List.cons_append, List.find?_cons_of_pos _ hp, List.find?_cons_of_pos _ hp]
    · rw [List.cons_append, List.find?_cons_of_neg _ hp, List.find?_cons_of_neg _ hp]
      exact ih

theorem lookupEntry_mem (store : List (Entry E)) (f : String) (e : Entry E)
    (h : lookupEntry store f = some e) : e ∈ store ∧ e.path = f :=
  ⟨List.mem_of_find?_eq_some h, by
    have := List.find?_some h
    simpa [beq_iff_eq] using this⟩

theorem lookupEntry_upsert_self (store : List (Entry E)) (g : String) (m : Int)
    (emb : E) :
    lookupEntry (upsert store g m emb) g = some ⟨g, m, some emb⟩ := by
  unfold upsert lookupEntry
  rw [List.find?_append]
  have h1 : (store.filter (fun e => !(e.path == g))).find?
      (fun e => e.path == g) = none := by
    rw [List.find?_eq_none]
    intro e he
    have := (List.mem_filter.mp he).2
    simp at this
    simp [this]
  rw [h1]
  simp [List.find?]

theorem lookupEntry_upsert_ne (store : List (Entry E)) (g f : String) (m : Int)
    (emb : E) (h : f ≠ g) :
    lookupEntry (upsert store g m emb) f = lookupEntry store f := by
  unfold upsert lookupEntry
  rw [find?_append_right_none]
  · exact find?_filter_keep store _ _ (by
      intro e he
      have hp : e.path = f := by simpa [beq_iff_eq] using he
      simp [hp, h])
  · have hb : (g == f) = false := beq_eq_false_iff_ne.mpr (Ne.symm h)
    simp [List.find?, hb]

theorem lookupEntry_reconcile_mem (store : List (Entry E)) (files : List String)
    (f : String) (hf : f ∈ files) :
    lookupEntry (reconcile store files) f = lookupEntry store f := by
  unfold reconcile lookupEntry
  exact find?_filter_keep store _ _ (by
    intro e he
    have hp : e.path = f := by simpa [beq_iff_eq] using he
    rw [hp]
    exact List.elem_iff.mpr hf)

theorem cacheHit_iff (fsMtime : String → Int) (store : List (Entry E))
    (f : String) :
    cacheHit fsMtime store f = true ↔
      ∃ e, lookupEntry store f = some e ∧ e.mtime = fsMtime f := by
  unfold cacheHit
  rcases h : lookupEntry store f with - | e
  · simp
  · simp [beq_iff_eq]

theorem indexLoop_cons_hit {quiet : Bool} {fsMtime : String → Int}
    {embed : String → EmbedResult E} {f : String} {rest : List String}
    {store : List (Entry E)} (h : cacheHit fsMtime store f = true) :
    indexLoop quiet fsMtime embed (f :: rest) store =
      indexLoop quiet fsMtime embed rest store := by
  simp [indexLoop, h]

theorem indexLoop_cons_ok {quiet : Bool} {fsMtime : String → Int}
    {embed : String → EmbedResult E} {f : String} {rest : List String}
    {store : List (Entry E)} {emb : E}
    (h : cacheHit fsMtime store f = false) (he : embed f = .ok emb) :
    indexLoop quiet fsMtime embed (f :: rest) store =
      ⟨(indexLoop quiet fsMtime embed rest (upsert store f (fsMtime f) emb)).store,
       f :: (indexLoop quiet fsMtime embed rest (upsert store f (fsMtime f) emb)).calls,
       (indexLoop quiet fsMtime embed rest (upsert store f (fsMtime f) emb)).aborted⟩ := by
  simp [indexLoop, h, he]

theorem indexLoop_cons_err_continue {quiet : Bool} {fsMtime : String → Int}
    {embed : String → EmbedResult E} {f : String} {rest : List String}
    {store : List (Entry E)} {c : Bool}
    (h : cacheHit fsMtime store f = false) (he : embed f = .err c)
    (hq : (!quiet && c) = false) :
    indexLoop quiet fsMtime embed (f :: rest) store =
      ⟨(indexLoop quiet fsMtime embed rest store).store,
       f :: (indexLoop quiet fsMtime embed rest store).calls,
       (indexLoop quiet fsMtime embed rest store).aborted⟩ := by
  simp [indexLoop, h, he, hq]

theorem indexLoop_cons_err_abort {quiet : Bool} {fsMtime : String → Int}
    {embed : String → EmbedResult E} {f : String} {rest : List String}
    {store : List (Entry E)} {c : Bool}
    (h : cacheHit fsMtime store f = false) (he : embed f = .err c)
    (hq : (!quiet && c) = true) :
    indexLoop quiet fsMtime embed (f :: rest) store = ⟨store, [f], true⟩ := by
  simp [indexLoop, h, he, hq]

/-- A row whose stored mtime matches the file's current mtime survives the
whole indexing pass untouched, and its file is never passed to the embed
collaborator. -/
theorem indexLoop_preserves_hit (quiet : Bool) (fsMtime : String → Int)
    (embed : String → EmbedResult E) (files : List String) :
    ∀ (store : List (Entry E)) (f : String) (e : Entry E),
      lookupEntry store f = some e → e.mtime = fsMtime f →
      f ∉ (indexLoop quiet fsMtime embed files store).calls ∧
      lookupEntry (indexLoop quiet fsMtime embed files store).store f = some e := by
  induction files with
  | nil =>
    intro store f e hl hm
    exact ⟨by simp [indexLoop], by simpa [indexLoop] using hl⟩
  | cons g rest ih =>
    intro store f e hl hm
    by_cases hg : cacheHit fsMtime store g = true
    · rw [indexLoop_cons_hit hg]
      exact ih store f e hl hm
    · have hgf : g ≠ f := by
        intro hEq
        subst hEq
        exact hg ((cacheHit_iff fsMtime store g).mpr ⟨e, hl, hm⟩)
      rcases he : embed g with emb | c
      · rw [indexLoop_cons_ok (by simpa using hg) he]
        have hl' : lookupEntry (upsert store g (fsMtime g) emb) f = some e := by
          rw [lookupEntry_upsert_ne store g f _ _ (Ne.symm hgf)]
          exact hl
        obtain ⟨hc, hs⟩ := ih _ f e hl' hm
        exact ⟨by simp [Ne.symm hgf, hc], hs⟩
      · by_cases hq : (!quiet && c) = true
        · rw [indexLoop_cons_err_abort (by simpa using hg) he hq]
          exact ⟨by simp [Ne.symm hgf], hl⟩
        · rw [indexLoop_cons_err_continue (by simpa using hg) he (by simpa using hq)]
          obtain ⟨hc, hs⟩ := ih store f e hl hm
          exact ⟨by simp [Ne.symm hgf, hc], hs⟩

theorem upsert_paths (store : List (Entry E)) (g p : String) (m : Int) (emb : E) :
    p ∈ (upsert store g m emb).map Entry.path ↔
      p ∈ store.map Entry.path ∨ p = g := by
  unfold upsert
  rw [List.map_append, List.mem_append]
  simp only [List.map_cons, List.map_nil, List.mem_singleton, List.mem_map,
    List.mem_filter]
  constructor
  · rintro (⟨e, ⟨he, -⟩, rfl⟩ | h)
    · exact Or.inl ⟨e, he, rfl⟩
    · exact Or.inr h
  · rintro (⟨e, he, rfl⟩ | rfl)
    · by_cases hgp : e.path = g
      · exact Or.inr hgp
      · exact Or.inl ⟨e, ⟨he, by simp [hgp]⟩, rfl⟩
    · exact Or.inr rfl

/-- When every embed call succeeds, the path set after the indexing pass is
the union of the incoming path set and the processed files. -/
theorem indexLoop_paths (quiet : Bool) (fsMtime : String → Int)
    (embed : String → EmbedResult E) (files : List String)
    (hok : ∀ f ∈ files, ∃ emb, embed f = .ok emb) :
    ∀ (store : List (Entry E)) (p : String),
      p ∈ (indexLoop quiet fsMtime embed files store).store.map Entry.path ↔
        p ∈ store.map Entry.path ∨ p ∈ files := by
  induction files with
  | nil =>
    intro store p
    simp [indexLoop]
  | cons g rest ih =>
    have hokr : ∀ f ∈ rest, ∃ emb, embed f = .ok emb :=
      fun f hf => hok f (List.mem_cons_of_mem _ hf)
    obtain ⟨emb, hemb⟩ := hok g (List.mem_cons_self _ _)
    intro store p
    by_cases hg : cacheHit fsMtime store g = true
    · rw [indexLoop_cons_hit hg, ih hokr store p]
      obtain ⟨e, hl, -⟩ := (cacheHit_iff fsMtime store g).mp hg
      obtain ⟨hmem, hpath⟩ := lookupEntry_mem store g e hl
      constructor
      · rintro (h | h)
        · exact Or.inl h
        · exact Or.inr (List.mem_cons_of_mem _ h)
      · rintro (h | h)
        · exact Or.inl h
        · rcases List.mem_cons.mp h with rfl | h
          · exact Or.inl (List.mem_map.mpr ⟨e, hmem, hpath⟩)
          · exact Or.inr h
    · rw [indexLoop_cons_ok (by simpa using hg) hemb]
      have : p ∈ (indexLoop quiet fsMtime embed rest
          (upsert store g (fsMtime g) emb)).store.map Entry.path ↔
          p ∈ (upsert store g (fsMtime g) emb).map Entry.path ∨ p ∈ rest :=
        ih hokr _ p
      rw [upsert_paths store g p _ emb] at this
      rw [this]
      simp only [List.mem_cons]
      tauto

/-- When every embed call succeeds, after the indexing pass every processed
file has a row whose mtime is the file's current mtime. -/
theorem indexLoop_fresh (quiet : Bool) (fsMtime : String → Int)
    (embed : String → EmbedResult E) (files : List String)
    (hok : ∀ f ∈ files, ∃ emb, embed f = .ok emb) :
    ∀ (store : List (Entry E)), ∀ f ∈ files,
      ∃ e, lookupEntry (indexLoop quiet fsMtime embed files store).store f = some e ∧
        e.mtime = fsMtime f := by
  induction files with
  | nil =>
    intro store f hf
    simp at hf
  | cons g rest ih =>
    have hokr : ∀ f ∈ rest, ∃ emb, embed f = .ok emb :=
      fun f hf => hok f (List.mem_cons_of_mem _ hf)
    obtain ⟨emb, hemb⟩ := hok g (List.mem_cons_self _ _)
    intro store f hf
    by_cases hg : cacheHit fsMtime store g = true
    · rw [indexLoop_cons_hit hg]
      rcases List.mem_cons.mp hf with rfl | hf'
      · obtain ⟨e, hl, hm⟩ := (cacheHit_iff fsMtime store f).mp hg
        obtain ⟨-, hs⟩ := indexLoop_preserves_hit quiet fsMtime embed rest store f e hl hm
        exact ⟨e, hs, hm⟩
      · exact ih hokr store f hf'
    · rw [indexLoop_cons_ok (by simpa using hg) hemb]
      rcases List.mem_cons.mp hf with rfl | hf'
      · have hl : lookupEntry (upsert store f (fsMtime f) emb) f =
            some ⟨f, fsMtime f, some emb⟩ := lookupEntry_upsert_self store f _ emb
        obtain ⟨-, hs⟩ := indexLoop_preserves_hit quiet fsMtime embed rest _ f _ hl rfl
        exact ⟨⟨f, fsMtime f, some emb⟩, hs, rfl⟩
      · exact ih hokr _ f hf'

/-- When every processed file is a cache hit, the indexing pass is a no-op
that issues no embed call. -/
theorem indexLoop_all_hits (quiet : Bool) (fsMtime : String → Int)
    (embed : String → EmbedResult E) :
    ∀ (files : List String) (store : List (Entry E)),
      (∀ f ∈ files, cacheHit fsMtime store f = true) →
      indexLoop quiet fsMtime embed files store = ⟨store, [], false⟩ := by
  intro files
  induction files with
  | nil => intro store h; rfl
  | cons g rest ih =>
    intro store h
    rw [indexLoop_cons_hit (h g (List.mem_cons_self _ _))]
    exact ih store (fun f hf => h f (List.mem_cons_of_mem _ hf))

/-- Shallow embedding of the `describe` command action
(src/unnamed/part_000:285-344): session guard, then file-existence guard,
then the single remote describe call. -/
def describeCmd {A : Type} (session : Option Credential) (fileExists : Bool)
    (remote : RemoteResult A) : CmdRun A :=
  if !(loggedIn session) then ⟨0, .notAuthenticated⟩
  else if !fileExists then ⟨0, .fileNotFound⟩
  else
    match remote with
    | .ok a => ⟨1, .done a⟩
    | .err c => ⟨1, .failed c⟩

/-- Shallow embedding of the `tag` command action
(src/unnamed/part_000:346-453): session guard, then file-existence guard,
then the single remote tag call. -/
def tagCmd {A : Type} (session : Option Credential) (fileExists : Bool)
    (remote : RemoteResult A) : CmdRun A :=
  if !(loggedIn session) then ⟨0, .notAuthenticated⟩
  else if !fileExists then ⟨0, .fileNotFound⟩
  else
    match remote with
    | .ok a => ⟨1, .done a⟩
    | .err c => ⟨1, .failed c⟩

/-- C6: the cleanup pass deletes from the index exactly the stored rows whose
path is not among the scanned files — a row survives it iff it was stored and
its path is scanned; provided every embed call succeeds, after the cleanup
pass followed by processing every scanned file the index's path set equals
exactly the scanned file set; and concretely, reconciling a store holding
a.jpg and b.jpg against the singleton file set a.jpg keeps exactly the a.jpg
row. -/
theorem reconcile_exact_sync :
    (∀ (E : Type) (store : List (Entry E)) (files : List String) (e : Entry E),
        e ∈ reconcile store files ↔ e ∈ store ∧ e.path ∈ files) ∧
    (∀ (E : Type) (quiet : Bool) (fsMtime : String → Int)
        (embed : String → EmbedResult E) (store : List (Entry E))
        (files : List String),
        (∀ f ∈ files, ∃ emb, embed f = .ok emb) →
        ∀ p, p ∈ (indexLoop quiet fsMtime embed files
            (reconcile store files)).store.map Entry.path ↔ p ∈ files) ∧
    reconcile ([⟨"a.jpg", 0, some 0⟩, ⟨"b.jpg", 0, some 1⟩] : List (Entry Nat))
        ["a.jpg"] = [⟨"a.jpg", 0, some 0⟩] := by
  refine ⟨?_, ?_, by decide⟩
  · intro E store files e
    simp [reconcile, List.mem_filter, List.contains, List.elem_iff]
  · intro E quiet fsMtime embed store files hok p
    rw [indexLoop_paths quiet fsMtime embed files hok (reconcile store files) p]
    constructor
    · rintro (h | h)
      · obtain ⟨e, he, rfl⟩ := List.mem_map.mp h
        have hm := (List.mem_filter.mp he).2
        exact List.elem_iff.mp hm
      · exact h
    · intro h
      exact Or.inr h

/-- Witness for C6 at a concrete run: reconciling a store holding only b.jpg
against the scanned set containing only a.jpg and then processing a.jpg with
a succeeding embed leaves an index containing a.jpg and not b.jpg. -/
theorem reconcile_exact_sync_witness :
    ("a.jpg" ∈ (indexLoop false (fun _ => 3) (fun _ => EmbedResult.ok 9) ["a.jpg"]
        (reconcile ([⟨"b.jpg", 0, some 5⟩] : List (Entry Nat))
          ["a.jpg"])).store.map Entry.path) ∧
    ¬ ("b.jpg" ∈ (indexLoop false (fun _ => 3) (fun _ => EmbedResult.ok 9) ["a.jpg"]
        (reconcile ([⟨"b.jpg", 0, some 5⟩] : List (Entry Nat))
          ["a.jpg"])).store.map Entry.path) := by
  have h := reconcile_exact_sync.2.1 Nat false (fun _ => 3)
    (fun _ => EmbedResult.ok 9) ([⟨"b.jpg", 0, some 5⟩] : List (Entry Nat))
    ["a.jpg"] (fun f hf => ⟨9, rfl⟩)
  constructor
  · exact (h ("a.jpg")).mpr (by decide)
  · intro hb
    exact absurd ((h ("b.jpg")).mp hb) (by decide)

/-- C7: a file whose stored mtime equals its current mtime is skipped by the
refresh pass — the embed collaborator is never invoked on it and its row is
left unchanged; consequently, when a first refresh run (cleanup pass plus
per-file loop) whose embed calls all succeed is followed by a second run with
no file changes in between, the second run issues zero embed calls and
leaves the store untouched, whatever its embed collaborator would answer. -/
theorem refresh_mtime_cache_hits :
    (∀ (E : Type) (quiet : Bool) (fsMtime : String → Int)
        (embed : String → EmbedResult E) (files : List String)
        (store : List (Entry E)) (f : String) (e : Entry E),
        lookupEntry store f = some e → e.mtime = fsMtime f →
        f ∉ (indexLoop quiet fsMtime embed files store).calls ∧
        lookupEntry (indexLoop quiet fsMtime embed files store).store f = some e) ∧
    (∀ (E : Type) (quiet : Bool) (fsMtime : String → Int)
        (embed embed2 : String → EmbedResult E) (files : List String)
        (store : List (Entry E)),
        (∀ f ∈ files, ∃ emb, embed f = .ok emb) →
        indexLoop quiet fsMtime embed2 files
            (reconcile (indexLoop quiet fsMtime embed files
              (reconcile store files)).store files) =
          ⟨reconcile (indexLoop quiet fsMtime embed files
              (reconcile store files)).store files, [], false⟩) := by
  constructor
  · intro E quiet fsMtime embed files store f e hl hm
    exact indexLoop_preserves_hit quiet fsMtime embed files store f e hl hm
  · intro E quiet fsMtime embed embed2 files store hok
    apply indexLoop_all_hits
    intro f hf
    obtain ⟨e, hl, hm⟩ :=
      indexLoop_fresh quiet fsMtime embed files hok (reconcile store files) f hf
    rw [cacheHit_iff]
    refine ⟨e, ?_, hm⟩
    rw [lookupEntry_reconcile_mem _ files f hf]
    exact hl

/-- Witness for C7 at a concrete run: a store already holding a.jpg at its
current mtime triggers no embed call for it, and a second refresh run after a
successful first run performs no embed call at all even though its embed
collaborator would fail. -/
theorem refresh_mtime_cache_hits_witness :
    ¬ ("a.jpg" ∈ (indexLoop false (fun _ => 3) (fun _ => EmbedResult.ok (9 : Nat))
        ["a.jpg"] ([⟨"a.jpg", 3, some 1⟩] : List (Entry Nat))).calls) ∧
    indexLoop false (fun _ => 3) (fun _ => EmbedResult.err true) ["a.jpg"]
        (reconcile (indexLoop false (fun _ => 3) (fun _ => EmbedResult.ok (9 : Nat))
          ["a.jpg"] (reconcile ([] : List (Entry Nat)) ["a.jpg"])).store ["a.jpg"]) =
      ⟨reconcile (indexLoop false (fun _ => 3) (fun _ => EmbedResult.ok (9 : Nat))
          ["a.jpg"] (reconcile ([] : List (Entry Nat)) ["a.jpg"])).store ["a.jpg"],
       [], false⟩ := by
  constructor
  · exact (refresh_mtime_cache_hits.1 Nat false (fun _ => 3)
      (fun _ => EmbedResult.ok 9) ["a.jpg"]
      ([⟨"a.jpg", 3, some 1⟩] : List (Entry Nat)) ("a.jpg")
      ⟨"a.jpg", 3, some 1⟩ (by decide) (by decide)).1
  · exact refresh_mtime_cache_hits.2 Nat false (fun _ => 3)
      (fun _ => EmbedResult.ok 9) (fun _ => EmbedResult.err true) ["a.jpg"] []
      (fun f hf => ⟨9, rfl⟩)

/-- Counterexample to C8 as stated: with quiet output disabled, an
insufficient-credits embedding failure on the first file aborts the whole
indexing pass with `process.exit(1)` — the second file is never processed —
rather than being caught, logged and skipped with the loop continuing. -/
theorem indexLoop_credits_abort_counterexample :
    indexLoop false (fun _ => 0)
      (fun f => if f == "a.jpg" then EmbedResult.err true
        else EmbedResult.ok (7 : Nat))
      ["a.jpg", "b.jpg"] [] = ⟨[], ["a.jpg"], true⟩ := by decide

/-- C8 amended: during the per-file indexing loop, every embedding failure
other than an insufficient-credits failure with quiet output disabled is
non-fatal — no row is written for the failing file, the loop is not aborted
by it, and the remaining files are processed exactly as they would have been
without that file; an insufficient-credits failure outside quiet mode
instead terminates the run immediately. -/
theorem indexLoop_per_file_failure_nonfatal (quiet : Bool)
    (fsMtime : String → Int) (embed : String → EmbedResult E) (f : String)
    (rest : List String) (store : List (Entry E)) (c : Bool)
    (hmiss : cacheHit fsMtime store f = false) (hembed : embed f = .err c)
    (hbenign : quiet = true ∨ c = false) :
    indexLoop quiet fsMtime embed (f :: rest) store =
      ⟨(indexLoop quiet fsMtime embed rest store).store,
       f :: (indexLoop quiet fsMtime embed rest store).calls,
       (indexLoop quiet fsMtime embed rest store).aborted⟩ := by
  have hq : (!quiet && c) = false := by
    rcases hbenign with h | h
    · simp [h]
    · simp [h]
  exact indexLoop_cons_err_continue hmiss hembed hq

/-- Witness for C8's amended statement at a concrete run: in quiet mode an
embedding failure on the first file leaves the store untouched and continues
with the second file. -/
theorem indexLoop_per_file_failure_nonfatal_witness :
    indexLoop true (fun _ => 0) (fun _ => EmbedResult.err (E := Nat) true)
      ["a.jpg", "b.jpg"] [] =
      ⟨(indexLoop true (fun _ => 0) (fun _ => EmbedResult.err (E := Nat) true)
          ["b.jpg"] []).store,
       "a.jpg" :: (indexLoop true (fun _ => 0)
          (fun _ => EmbedResult.err (E := Nat) true) ["b.jpg"] []).calls,
       (indexLoop true (fun _ => 0) (fun _ => EmbedResult.err (E := Nat) true)
          ["b.jpg"] []).aborted⟩ :=
  indexLoop_per_file_failure_nonfatal true (fun _ => 0)
    (fun _ => EmbedResult.err true) ("a.jpg") ["b.jpg"] [] true
    (by decide) rfl (Or.inl rfl)

/-- C9: with no stored session, or a session whose access token is missing or
empty, each of `edit`, `describe`, `tag` and `search` issues no remote call
at all, reports the not-authenticated failure, and exits with the non-zero
code 1; `search` additionally leaves the index untouched. -/
theorem commands_fail_fast_without_credential (session : Option Credential)
    (h : loggedIn session = false) :
    (∀ (A : Type) (fileExists : Bool) (remote : RemoteResult A),
        editCmd session fileExists remote = ⟨0, .notAuthenticated⟩ ∧
        cmdExitCode (editCmd session fileExists remote).outcome = 1) ∧
    (∀ (A : Type) (fileExists : Bool) (remote : RemoteResult A),
        describeCmd session fileExists remote = ⟨0, .notAuthenticated⟩ ∧
        cmdExitCode (describeCmd session fileExists remote).outcome = 1) ∧
    (∀ (A : Type) (fileExists : Bool) (remote : RemoteResult A),
        tagCmd session fileExists remote = ⟨0, .notAuthenticated⟩ ∧
        cmdExitCode (tagCmd session fileExists remote).outcome = 1) ∧
    (∀ (E Q S : Type) (quiet localMode : Bool) (store : List (Entry E))
        (dirListing : List String) (fsMtime : String → Int)
        (embed : String → EmbedResult E) (queryRes : EmbedResult Q)
        (sim : Q → E → S) (sle : S → S → Bool),
        searchCmd quiet localMode session store dirListing fsMtime embed
            queryRes sim sle = ⟨[], store, .notAuthenticated⟩ ∧
        searchExitCode (searchCmd quiet localMode session store dirListing
            fsMtime embed queryRes sim sle).outcome = 1) := by
  refine ⟨?_, ?_, ?_, ?_⟩
  · intro A fileExists remote
    constructor
    · simp [editCmd, h]
    · simp [editCmd, h, cmdExitCode]
  · intro A fileExists remote
    constructor
    · simp [describeCmd, h]
    · simp [describeCmd, h, cmdExitCode]
  · intro A fileExists remote
    constructor
    · simp [tagCmd, h]
    · simp [tagCmd, h, cmdExitCode]
  · intro E Q S quiet localMode store dirListing fsMtime embed queryRes sim sle
    constructor
    · simp [searchCmd, h]
    · simp [searchCmd, h, searchExitCode]

/-- Witness for C9 at concrete inputs: a session whose access token is the
empty string is rejected by `edit` and by `search` without any remote call. -/
theorem commands_fail_fast_without_credential_witness :
    editCmd (some ⟨some ""⟩) true (RemoteResult.ok (0 : Nat)) =
      ⟨0, CmdOutcome.notAuthenticated⟩ ∧
    searchCmd false false (some ⟨some ""⟩) ([] : List (Entry Nat)) []
        (fun _ => 0) (fun _ => EmbedResult.err false) (EmbedResult.ok (0 : Nat))
        (fun _ _ => (0 : Nat)) (fun _ _ => true) =
      ⟨[], [], SearchOutcome.notAuthenticated⟩ := by
  have h := commands_fail_fast_without_credential (some ⟨some ""⟩) (by decide)
  exact ⟨(h.1 Nat true (RemoteResult.ok 0)).1,
    (h.2.2.2 Nat Nat Nat false false [] [] (fun _ => 0)
      (fun _ => EmbedResult.err false) (EmbedResult.ok 0)
      (fun _ _ => 0) (fun _ _ => true)).1⟩

/-- C10: when the directory listing contains no file with an allowed image
extension, an authenticated `search` run stops before the cleanup pass and
before any remote call: it issues no call, leaves every stored row exactly as
it was (the cleanup that would sync the index to the empty file set is
skipped entirely), and exits through the no-images path. -/
theorem search_empty_scan_preserves_index (quiet localMode : Bool)
    (session : Option Credential) (store : List (Entry E))
    (dirListing : List String) (fsMtime : String → Int)
    (embed : String → EmbedResult E) (queryRes : EmbedResult Q)
    (sim : Q → E → S) (sle : S → S → Bool)
    (hauth : loggedIn session = true)
    (hscan : ∀ f ∈ dirListing, isImageFile f = false) :
    searchCmd quiet localMode session store dirListing fsMtime embed queryRes
        sim sle = ⟨[], store, .noImages⟩ := by
  have hfilter : dirListing.filter isImageFile = [] := by
    rw [List.filter_eq_nil_iff]
    intro f hf
    simp [hscan f hf]
  simp [searchCmd, hauth, hfilter]

/-- Witness for C10 at a concrete run: an authenticated search over a
directory holding only a text file leaves the stale old.jpg row in place —
although the cleanup pass would have deleted it — and issues no call. -/
theorem search_empty_scan_preserves_index_witness :
    searchCmd false false (some ⟨some ("tok")⟩)
        ([⟨"old.jpg", 0, some 1⟩] : List (Entry Nat)) ["notes.txt"]
        (fun _ => 0) (fun _ => EmbedResult.ok 2) (EmbedResult.ok (3 : Nat))
        (fun _ _ => (0 : Nat)) (fun _ _ => true) =
      ⟨[], [⟨"old.jpg", 0, some 1⟩], SearchOutcome.noImages⟩ :=
  search_empty_scan_preserves_index false false (some ⟨some ("tok")⟩)
    ([⟨"old.jpg", 0, some 1⟩] : List (Entry Nat)) ["notes.txt"]
    (fun _ => 0) (fun _ => EmbedResult.ok 2) (EmbedResult.ok (3 : Nat))
    (fun _ _ => (0 : Nat)) (fun _ _ => true) (by decide) (by decide)

end CorevizCLI
